import Mathlib

set_option maxRecDepth 4000

/-!
Verification development for the palette-covering core of the `agb`
image converter (`agb-image-converter/src/palette16.rs`).

The Rust code is shallowly embedded: vectors become lists, `HashSet`
collections become duplicate-free lists (the algorithm's observable
behaviour is independent of hash-iteration order: the tally built in
`find_maximal_palette_for` is additive, and the removal / re-scan steps are
pointwise), and every `panic!` becomes an `Except.error` carrying a
`PanicMsg` value naming the panic site.  Loops are modelled with explicit
fuel; the fuel bounds (17 for both loops) strictly dominate the source's own
iteration bounds (a bank gains one colour per inner iteration and returns at
16; the outer loop pushes one bank per iteration and aborts at 16), so the
`fuelExhausted` branch is unreachable from the public entry points.
-/

/-- Modelled from the spec: the `Colour` value type lives in `colour.rs`,
which is not part of the given sources.  Per the spec it has 4 independent
8-bit channels (r, g, b, a), value equality iff all four channels match,
and `is_transparent()` holds iff alpha == 0. -/
structure Colour where
  r : Nat
  g : Nat
  b : Nat
  a : Nat
deriving DecidableEq

/-- Modelled from the spec: `Colour::from_rgb(r, g, b, a)` constructor
(channels are `u8`, hence the reduction mod 256). -/
def Colour.from_rgb (r g b a : Nat) : Colour :=
  ⟨r % 256, g % 256, b % 256, a % 256⟩

/-- Modelled from the spec: `Colour::is_transparent()` holds iff alpha == 0. -/
def Colour.is_transparent (c : Colour) : Bool :=
  c.a == 0

/-- Embedding of `const MAX_COLOURS: usize = 256;`. -/
def MAX_COLOURS : Nat := 256

/-- Embedding of `const MAX_COLOURS_PER_PALETTE: usize = 16;`. -/
def MAX_COLOURS_PER_PALETTE : Nat := 16

/-- Each `panic!` site of `palette16.rs`, plus the out-of-fuel marker used by
the loop embeddings (unreachable from the public entry points). -/
inductive PanicMsg where
  /-- "Can have at most 16 colours in a single palette" -/
  | tooManyColoursInPalette
  /-- "Cannot have over 256 colours" -/
  | tooManyColours
  /-- "Failed to find covering palettes" -/
  | failedToFindCoveringPalettes
  /-- "Can not get a colour index without it existing" -/
  | colourIndexMissing
  /-- implicit panic of `self.colours[best_index]` -/
  | indexOutOfBounds
  /-- fuel ran out (modelling artifact, unreachable from entry points) -/
  | fuelExhausted
deriving DecidableEq

/-- Embedding of `struct Palette16` with its single field
`colours: Vec<Colour>`. -/
structure Palette16 where
  colours : List Colour
deriving DecidableEq

/-- Embedding of `Palette16::new()`. -/
def Palette16.new : Palette16 := ⟨[]⟩

/-- Embedding of `Palette16::add_colour`: returns `false` (no-op) when the colour is
already present, panics when the palette is full and the colour is new,
otherwise pushes the colour and returns `true`. -/
def Palette16.add_colour (p : Palette16) (colour : Colour) :
    Except PanicMsg (Palette16 × Bool) :=
  if colour ∈ p.colours then
    .ok (p, false)
  else if p.colours.length = MAX_COLOURS_PER_PALETTE then
    .error .tooManyColoursInPalette
  else
    .ok (⟨p.colours ++ [colour]⟩, true)

/-- Embedding of `Palette16::try_add_colour`: like `add_colour` but reports fullness as
`false` instead of panicking, and reports an already-present colour as
`true`. -/
def Palette16.try_add_colour (p : Palette16) (colour : Colour) :
    Palette16 × Bool :=
  if colour ∈ p.colours then
    (p, true)
  else if p.colours.length = MAX_COLOURS_PER_PALETTE then
    (p, false)
  else
    (⟨p.colours ++ [colour]⟩, true)

/-- Embedding of `Palette16::colour_index`: looks up the position of the colour (redirected
to `transparent_colour` when the argument is transparent and an override is
supplied); `as u8` truncates the position mod 256.  Panics when the colour is
absent. -/
def Palette16.colour_index (p : Palette16) (colour : Colour)
    (transparent_colour : Option Colour) : Except PanicMsg Nat :=
  let colour_to_search :=
    match transparent_colour, colour.is_transparent with
    | some transparent_colour, true => transparent_colour
    | _, _ => colour
  match p.colours.findIdx? (fun c => decide (c = colour_to_search)) with
  | some i => .ok (i % 256)
  | none => .error .colourIndexMissing

/-- Embedding of `Palette16::len`. -/
def Palette16.len (p : Palette16) : Nat := p.colours.length

/-- Embedding of `Palette16::union_length`: number of distinct colours across both
palettes (the Rust code collects the chained iterators into a `HashSet` and
takes its size). -/
def Palette16.union_length (p other : Palette16) : Nat :=
  (p.colours ++ other.colours).dedup.length

/-- Embedding of `Palette16::is_satisfied_by`: subset test on the underlying colour sets. -/
def Palette16.is_satisfied_by (p other : Palette16) : Bool :=
  p.colours.all (fun c => decide (c ∈ other.colours))

/-- Embedding of `struct Palette16Optimiser`. -/
structure Palette16Optimiser where
  palettes : List Palette16
  colours : List Colour
  transparent_colour : Option Colour
deriving DecidableEq

/-- Embedding of `struct Palette16OptimisationResults`. -/
structure Palette16OptimisationResults where
  optimised_palettes : List Palette16
  assignments : List Nat
  transparent_colour : Option Colour
deriving DecidableEq

/-- Embedding of `Palette16Optimiser::new`. -/
def Palette16Optimiser.new (transparent_colour : Option Colour) :
    Palette16Optimiser :=
  ⟨[], [], transparent_colour⟩

/-- The colour-merging fold of `Palette16Optimiser::add_palette`: pushes each
colour of `l` not already present onto `cs`, in order. -/
def mergeColours (cs : List Colour) (l : List Colour) : List Colour :=
  l.foldl (fun cs colour => if colour ∈ cs then cs else cs ++ [colour]) cs

/-- Embedding of `Palette16Optimiser::add_palette`: records the palette, merges its new
colours into the flattened global colour list, and panics when that list
exceeds 256 entries. -/
def Palette16Optimiser.add_palette (o : Palette16Optimiser) (palette : Palette16) :
    Except PanicMsg Palette16Optimiser :=
  let palettes := o.palettes ++ [palette]
  let colours := mergeColours o.colours palette.colours
  if MAX_COLOURS < colours.length then
    .error .tooManyColours
  else
    .ok ⟨palettes, colours, o.transparent_colour⟩

/-- The distinct values of a list in first-seen order: the embedding of
collecting `self.palettes` into a `HashSet<Palette16>` (only the underlying
set of values is observable; see the module comment). -/
def dedupFirst {α : Type} [DecidableEq α] (l : List α) : List α :=
  l.foldl (fun acc x => if x ∈ acc then acc else acc ++ [x]) []

/-- The per-colour tally update of `find_maximal_palette_for`: a colour not
yet in the bank bumps the counter at its global colour index and records that
a colour is used. -/
def tallyColour (gcolours : List Colour) (palette : Palette16)
    (st : List Nat × Bool) (colour : Colour) : List Nat × Bool :=
  if colour ∈ palette.colours then
    st
  else
    match gcolours.findIdx? (fun c => decide (c = colour)) with
    | some colour_index =>
        (st.1.set colour_index (st.1.getD colour_index 0 + 1), true)
    | none => st

/-- The per-palette tally update of `find_maximal_palette_for`: a palette
whose union with the bank would overflow 16 is skipped, otherwise each of its
colours is tallied. -/
def tallyPalette (gcolours : List Colour) (palette : Palette16)
    (st : List Nat × Bool) (current_palette : Palette16) : List Nat × Bool :=
  if MAX_COLOURS_PER_PALETTE < palette.union_length current_palette then
    st
  else
    current_palette.colours.foldl (tallyColour gcolours palette) st

/-- The tally step of `find_maximal_palette_for`: one pass over the
unsatisfied palettes, counting for every global colour index how many
compatible palettes (union with the bank still ≤ 16) contain that colour
while the bank does not.  The second component is `a_colour_is_used`. -/
def fmTally (gcolours : List Colour) (palette : Palette16)
    (unsat : List Palette16) : List Nat × Bool :=
  unsat.foldl (tallyPalette gcolours palette)
    (List.replicate MAX_COLOURS 0, false)

/-- One step of Rust's `max_by` fold on `(index, usage)` pairs: the
accumulator is kept only when its usage is strictly greater, so among equal
usages the later entry wins. -/
def maxByStep (best x : Nat × Nat) : Nat × Nat :=
  if x.2 < best.2 then best else x

/-- The embedding of
`usage.iter().enumerate().max_by(|(_, u1), (_, u2)| u1.cmp(u2)).unwrap().0`:
Rust's `max_by` keeps the accumulator only when it is strictly greater, so
among equal maxima the **last** index wins. -/
def rustMaxByIdx (l : List Nat) : Nat :=
  match l.enum with
  | [] => 0
  | h :: t => (t.foldl maxByStep h).1

/-- The `loop { ... }` of `find_maximal_palette_for`, with explicit fuel.
Each executed iteration either returns or grows the bank by one colour and
the bank is returned at 16 colours, so fuel 17 on a seeded (1-colour) bank is
never exhausted. -/
def fmLoop (gcolours : List Colour) (unsat : List Palette16) :
    Nat → Palette16 → Except PanicMsg Palette16
  | 0, _ => .error .fuelExhausted
  | fuel + 1, palette =>
    let st := fmTally gcolours palette unsat
    if st.2 = false then
      .ok palette
    else
      let best_index := rustMaxByIdx st.1
      match gcolours[best_index]? with
      | none => .error .indexOutOfBounds
      | some best_colour =>
        match palette.add_colour best_colour with
        | .error e => .error e
        | .ok (palette2, _) =>
          if palette2.colours.length = MAX_COLOURS_PER_PALETTE then
            .ok palette2
          else
            fmLoop gcolours unsat fuel palette2

/-- Core of `Palette16Optimiser::find_maximal_palette_for`, parameterised by the two
fields of `self` that it reads (`self.colours` and `self.transparent_colour`). -/
def find_maximal_core (gcolours : List Colour) (transparent_colour : Option Colour)
    (unsat : List Palette16) : Except PanicMsg Palette16 :=
  match Palette16.new.add_colour
      (transparent_colour.getD (Colour.from_rgb 255 0 255 0)) with
  | .error e => .error e
  | .ok (palette, _) => fmLoop gcolours unsat (MAX_COLOURS_PER_PALETTE + 1) palette

/-- Embedding of `Palette16Optimiser::find_maximal_palette_for`. -/
def Palette16Optimiser.find_maximal_palette_for (o : Palette16Optimiser)
    (unsat : List Palette16) : Except PanicMsg Palette16 :=
  find_maximal_core o.colours o.transparent_colour unsat

/-- The `while !unsatisfied_palettes.is_empty()` loop of `optimise_palettes`,
parameterised by the fields of `self` that it reads and with explicit fuel.
Each executed iteration pushes one bank and the loop aborts when the bank
count reaches 16, so fuel 17 starting from an empty bank list is never
exhausted. -/
def optimiseLoop (palettes : List Palette16) (gcolours : List Colour)
    (transparent_colour : Option Colour) :
    Nat → List Palette16 → List Nat → List Palette16 →
    Except PanicMsg Palette16OptimisationResults
  | 0, _, _, _ => .error .fuelExhausted
  | fuel + 1, unsat, assignments, optimised =>
    if unsat.isEmpty then
      .ok ⟨optimised, assignments, transparent_colour⟩
    else
      match find_maximal_core gcolours transparent_colour unsat with
      | .error e => .error e
      | .ok palette =>
        let unsat2 := unsat.filter (fun t => !(t.is_satisfied_by palette))
        let assignments2 :=
          List.zipWith
            (fun overall_palette a =>
              if overall_palette.is_satisfied_by palette then
                optimised.length
              else a)
            palettes assignments
        let optimised2 := optimised ++ [palette]
        if optimised2.length = MAX_COLOURS / MAX_COLOURS_PER_PALETTE then
          .error .failedToFindCoveringPalettes
        else
          optimiseLoop palettes gcolours transparent_colour fuel
            unsat2 assignments2 optimised2

/-- Embedding of `Palette16Optimiser::optimise_palettes`. -/
def Palette16Optimiser.optimise_palettes (o : Palette16Optimiser) :
    Except PanicMsg Palette16OptimisationResults :=
  optimiseLoop o.palettes o.colours o.transparent_colour
    (MAX_COLOURS / MAX_COLOURS_PER_PALETTE + 1)
    (dedupFirst o.palettes)
    (List.replicate o.palettes.length 0)
    []

/-- An optimiser built by feeding a sequence of `add_palette` calls to a
freshly constructed `Palette16Optimiser`. -/
def buildOptimiser (transparent_colour : Option Colour)
    (calls : List Palette16) : Except PanicMsg Palette16Optimiser :=
  calls.foldlM (fun o p => o.add_palette p) (Palette16Optimiser.new transparent_colour)

/-! ## Basic facts about the container operations -/

/-- Case analysis for a successful `add_colour`: either the colour was
already present (no-op, returns `false`), or it was appended (palette not
full, returns `true`). -/
theorem Palette16.add_colour_ok_cases (p : Palette16) (c : Colour)
    (q : Palette16) (b : Bool) (h : p.add_colour c = .ok (q, b)) :
    (b = false ∧ q = p ∧ c ∈ p.colours) ∨
      (b = true ∧ q.colours = p.colours ++ [c] ∧ c ∉ p.colours ∧
        p.colours.length ≠ MAX_COLOURS_PER_PALETTE) := by
  unfold Palette16.add_colour at h
  split at h
  · left
    simp only [Except.ok.injEq, Prod.mk.injEq] at h
    exact ⟨h.2.symm, h.1.symm, by assumption⟩
  · split at h
    · exact absurd h (by simp)
    · right
      simp only [Except.ok.injEq, Prod.mk.injEq] at h
      refine ⟨h.2.symm, ?_, by assumption, by assumption⟩
      rw [← h.1]

/-! ## Claims C10, C4, C2 -/

/-- C10: calling `optimise_palettes` on an optimiser with zero registered
input palettes does not fail: it returns an empty bank list, an empty
assignments array, and the carried-through transparent-colour designation. -/
theorem C10_empty_input_ok (o : Palette16Optimiser) (h : o.palettes = []) :
    o.optimise_palettes = .ok ⟨[], [], o.transparent_colour⟩ := by
  unfold Palette16Optimiser.optimise_palettes
  rw [h]
  rfl

theorem C10_witness :
    (Palette16Optimiser.new (some (Colour.from_rgb 1 2 3 4))).optimise_palettes =
      .ok ⟨[], [], some (Colour.from_rgb 1 2 3 4)⟩ :=
  C10_empty_input_ok _ rfl

/-- C4: two optimiser instances fed the identical sequence of `add_palette`
calls and the identical transparent-colour configuration produce identical
results.  The embedding of the whole pipeline is a function of the call
sequence, so this is definitional here; that the embedding may fix an
iteration order for the Rust `HashSet` working set in the first place is
justified separately by `optimise_palettes_hash_order_irrelevant`, which
shows every iteration order yields the same result. -/
theorem C4_determinism (calls : List Palette16) (tc : Option Colour)
    (o1 o2 : Palette16Optimiser)
    (h1 : buildOptimiser tc calls = .ok o1)
    (h2 : buildOptimiser tc calls = .ok o2) :
    o1.optimise_palettes = o2.optimise_palettes := by
  rw [h1] at h2
  injection h2 with h
  rw [h]

theorem C4_witness :
    (Palette16Optimiser.mk [⟨[⟨1, 2, 3, 4⟩]⟩] [⟨1, 2, 3, 4⟩] none).optimise_palettes =
      (Palette16Optimiser.mk [⟨[⟨1, 2, 3, 4⟩]⟩] [⟨1, 2, 3, 4⟩] none).optimise_palettes :=
  C4_determinism [⟨[⟨1, 2, 3, 4⟩]⟩] none _ _ (by rfl) (by rfl)

/-- C2 (the code, not the claim): whenever the outer covering loop appends
its 16th bank it aborts with `failedToFindCoveringPalettes` — even when that
bank satisfies every remaining unsatisfied palette, i.e. even when the cover
has just been completed within the 16-bank hardware budget.  The claim says
such an input succeeds; the code unconditionally panics after the push. -/
theorem C2_sixteenth_bank_always_fatal
    (palettes unsat optimised : List Palette16) (gcolours : List Colour)
    (tc : Option Colour) (assignments : List Nat) (fuel : Nat)
    (bank : Palette16)
    (hunsat : unsat ≠ [])
    (hbank : find_maximal_core gcolours tc unsat = .ok bank)
    (hcover : ∀ p ∈ unsat, p.is_satisfied_by bank = true)
    (hlen : optimised.length = 15) :
    optimiseLoop palettes gcolours tc (fuel + 1) unsat assignments optimised =
      .error .failedToFindCoveringPalettes := by
  have hempty : unsat.isEmpty = false := by
    cases unsat with
    | nil => exact absurd rfl hunsat
    | cons a l => rfl
  unfold optimiseLoop
  rw [hempty, hbank]
  simp only [Bool.false_eq_true, if_false, List.length_append, hlen]
  rfl

theorem C2_witness :
    optimiseLoop [⟨[⟨1, 0, 0, 255⟩]⟩] [⟨1, 0, 0, 255⟩] none 2
        [⟨[⟨1, 0, 0, 255⟩]⟩] [0] (List.replicate 15 ⟨[⟨9, 9, 9, 9⟩]⟩) =
      .error .failedToFindCoveringPalettes :=
  C2_sixteenth_bank_always_fatal _ _ _ _ _ _ 1
    ⟨[Colour.from_rgb 255 0 255 0, ⟨1, 0, 0, 255⟩]⟩
    (by decide) (by rfl) (by decide) (by rfl)

/-! ## Bank-construction invariants -/

/-- The inner greedy loop never grows a bank past 16 colours. -/
theorem fmLoop_ok_length (gcolours : List Colour) (unsat : List Palette16) :
    ∀ (fuel : Nat) (p q : Palette16), p.colours.length ≤ 16 →
      fmLoop gcolours unsat fuel p = .ok q → q.colours.length ≤ 16 := by
  intro fuel
  induction fuel with
  | zero => intro p q _ h; exact absurd h (by simp [fmLoop])
  | succ n ih =>
    intro p q hlen h
    unfold fmLoop at h
    simp only [] at h
    split at h
    · injection h with h; rw [← h]; exact hlen
    · split at h
      · exact absurd h (by simp)
      · split at h
        · exact absurd h (by simp)
        · rename_i p2 b heq
          have hp2 : p2.colours.length ≤ 16 := by
            rcases Palette16.add_colour_ok_cases _ _ _ _ heq with
              ⟨_, hq, _⟩ | ⟨_, hq, _, hne⟩
            · rw [hq]; exact hlen
            · rw [hq, List.length_append, List.length_singleton]
              have : p.colours.length < 16 := by
                rcases Nat.lt_or_ge p.colours.length 16 with h16 | h16
                · exact h16
                · exact absurd (Nat.le_antisymm hlen h16)
                    (by simpa [MAX_COLOURS_PER_PALETTE] using hne)
              omega
          split at h
          · injection h with h; rw [← h]; exact hp2
          · exact ih p2 q hp2 h

/-- The inner greedy loop only appends colours: the seeded first slot is
preserved. -/
theorem fmLoop_ok_head (gcolours : List Colour) (unsat : List Palette16) :
    ∀ (fuel : Nat) (p q : Palette16), p.colours ≠ [] →
      fmLoop gcolours unsat fuel p = .ok q → q.colours.head? = p.colours.head? := by
  intro fuel
  induction fuel with
  | zero => intro p q _ h; exact absurd h (by simp [fmLoop])
  | succ n ih =>
    intro p q hne h
    unfold fmLoop at h
    simp only [] at h
    split at h
    · injection h with h; rw [h]
    · split at h
      · exact absurd h (by simp)
      · split at h
        · exact absurd h (by simp)
        · rename_i p2 b heq
          have hp2 : p2.colours.head? = p.colours.head? ∧ p2.colours ≠ [] := by
            rcases Palette16.add_colour_ok_cases _ _ _ _ heq with
              ⟨_, hq, _⟩ | ⟨_, hq, _, _⟩
            · rw [hq]; exact ⟨rfl, hne⟩
            · rw [hq]
              cases hc : p.colours with
              | nil => exact absurd hc hne
              | cons a l => exact ⟨rfl, by simp⟩
          split at h
          · injection h with h; rw [← h]; exact hp2.1
          · exact (ih p2 q hp2.2 h).trans hp2.1

/-- Seeding a fresh palette always succeeds and yields the one-colour
palette. -/
theorem seed_add_colour (t : Colour) :
    Palette16.new.add_colour t = .ok (⟨[t]⟩, true) := by
  simp [Palette16.add_colour, Palette16.new, MAX_COLOURS_PER_PALETTE]

/-- Every bank returned by `find_maximal_palette_for` has at most 16
colours. -/
theorem find_maximal_core_ok_length (gcolours : List Colour)
    (tc : Option Colour) (unsat : List Palette16) (q : Palette16)
    (h : find_maximal_core gcolours tc unsat = .ok q) :
    q.colours.length ≤ 16 := by
  unfold find_maximal_core at h
  rw [seed_add_colour] at h
  exact fmLoop_ok_length gcolours unsat _ _ q (by simp) h

/-- Every bank returned by `find_maximal_palette_for` carries the seed (the
transparent colour, or the sentinel when none is configured) in its first
slot. -/
theorem find_maximal_core_ok_head (gcolours : List Colour)
    (tc : Option Colour) (unsat : List Palette16) (q : Palette16)
    (h : find_maximal_core gcolours tc unsat = .ok q) :
    q.colours.head? = some (tc.getD (Colour.from_rgb 255 0 255 0)) := by
  unfold find_maximal_core at h
  rw [seed_add_colour] at h
  exact fmLoop_ok_head gcolours unsat _ _ q (by simp) h

/-- Every bank in a successful result of the outer covering loop either was
already in the accumulator or is a bank produced by
`find_maximal_palette_for`. -/
theorem optimiseLoop_ok_banks_from (palettes : List Palette16)
    (gcolours : List Colour) (tc : Option Colour) :
    ∀ (fuel : Nat) (unsat : List Palette16) (assignments : List Nat)
      (optimised : List Palette16) (r : Palette16OptimisationResults),
      optimiseLoop palettes gcolours tc fuel unsat assignments optimised = .ok r →
      ∀ b ∈ r.optimised_palettes,
        b ∈ optimised ∨ ∃ u, find_maximal_core gcolours tc u = .ok b := by
  intro fuel
  induction fuel with
  | zero => intro _ _ _ r h; exact absurd h (by simp [optimiseLoop])
  | succ n ih =>
    intro unsat assignments optimised r h b hb
    unfold optimiseLoop at h
    simp only [] at h
    split at h
    · injection h with h
      rw [← h] at hb
      exact Or.inl hb
    · split at h
      · exact absurd h (by simp)
      · rename_i palette heq
        split at h
        · exact absurd h (by simp)
        · rcases ih _ _ _ r h b hb with hmem | hfm
          · rcases List.mem_append.mp hmem with hmem | hmem
            · exact Or.inl hmem
            · refine Or.inr ⟨unsat, ?_⟩
              rw [heq, List.mem_singleton.mp hmem]
          · exact Or.inr hfm

/-! ## Claims C8 and C6 -/

/-- C8: capacity invariant.  For any palette within the 16-colour bound:
a successful `add_colour` stays within the bound; `add_colour` fails exactly
when the palette is full and the colour is new; `try_add_colour` stays within
the bound, returns `false` exactly in the full-and-new case, and returns
`true` exactly when the colour is present in (was kept or added to) the
resulting palette.  Moreover every bank of a successful `optimise_palettes`
run has at most 16 colours. -/
theorem C8_capacity_invariant :
    (∀ (p : Palette16) (c : Colour), p.colours.length ≤ 16 →
      (∀ q b, p.add_colour c = .ok (q, b) → q.colours.length ≤ 16) ∧
      ((∃ e, p.add_colour c = .error e) ↔
        p.colours.length = 16 ∧ c ∉ p.colours) ∧
      (p.try_add_colour c).1.colours.length ≤ 16 ∧
      ((p.try_add_colour c).2 = false ↔
        p.colours.length = 16 ∧ c ∉ p.colours) ∧
      ((p.try_add_colour c).2 = true ↔ c ∈ (p.try_add_colour c).1.colours)) ∧
    (∀ (o : Palette16Optimiser) (r : Palette16OptimisationResults),
      o.optimise_palettes = .ok r →
      ∀ b ∈ r.optimised_palettes, b.colours.length ≤ 16) := by
  constructor
  · intro p c hlen
    refine ⟨?_, ?_, ?_, ?_, ?_⟩
    · intro q b h
      rcases Palette16.add_colour_ok_cases p c q b h with
        ⟨_, hq, _⟩ | ⟨_, hq, _, hne⟩
      · rw [hq]; exact hlen
      · rw [hq, List.length_append, List.length_singleton]
        have : p.colours.length ≠ 16 := by
          simpa [MAX_COLOURS_PER_PALETTE] using hne
        omega
    · unfold Palette16.add_colour
      constructor
      · rintro ⟨e, he⟩
        split at he
        · exact absurd he (by simp)
        · split at he
          · exact ⟨by simpa [MAX_COLOURS_PER_PALETTE] using (by assumption :
              p.colours.length = MAX_COLOURS_PER_PALETTE), by assumption⟩
          · exact absurd he (by simp)
      · rintro ⟨h16, hnm⟩
        refine ⟨.tooManyColoursInPalette, ?_⟩
        rw [if_neg hnm, if_pos (by simpa [MAX_COLOURS_PER_PALETTE] using h16)]
    · unfold Palette16.try_add_colour
      split
      · exact hlen
      · split
        · exact hlen
        · rename_i hne
          simp only [List.length_append, List.length_singleton]
          have : p.colours.length ≠ 16 := by
            simpa [MAX_COLOURS_PER_PALETTE] using hne
          omega
    · unfold Palette16.try_add_colour
      split
      · rename_i hm
        constructor
        · intro hcontra; exact absurd hcontra (by simp)
        · rintro ⟨_, hnm⟩; exact absurd hm hnm
      · split
        · rename_i hm h16
          constructor
          · intro _
            exact ⟨by simpa [MAX_COLOURS_PER_PALETTE] using h16, hm⟩
          · intro _; rfl
        · rename_i hm hne
          constructor
          · intro hcontra; exact absurd hcontra (by simp)
          · rintro ⟨h16, _⟩
            exact absurd (by simpa [MAX_COLOURS_PER_PALETTE] using h16 :
              p.colours.length = MAX_COLOURS_PER_PALETTE) hne
    · unfold Palette16.try_add_colour
      split
      · rename_i hm; simpa using hm
      · split
        · rename_i hm _; simpa using hm
        · simp
  · intro o r h b hb
    rcases optimiseLoop_ok_banks_from o.palettes o.colours o.transparent_colour
        _ _ _ _ r h b hb with hmem | ⟨u, hu⟩
    · exact absurd hmem (by simp)
    · exact find_maximal_core_ok_length _ _ _ _ hu

theorem C8_witness :
    ((⟨[]⟩ : Palette16).try_add_colour ⟨0, 0, 0, 0⟩).1.colours.length ≤ 16 ∧
      (⟨[Colour.from_rgb 255 0 255 0, ⟨1, 0, 0, 255⟩]⟩ : Palette16).colours.length ≤ 16 :=
  ⟨(C8_capacity_invariant.1 ⟨[]⟩ ⟨0, 0, 0, 0⟩ (by decide)).2.2.1,
    C8_capacity_invariant.2 ⟨[⟨[⟨1, 0, 0, 255⟩]⟩], [⟨1, 0, 0, 255⟩], none⟩
      ⟨[⟨[Colour.from_rgb 255 0 255 0, ⟨1, 0, 0, 255⟩]⟩], [0], none⟩ (by rfl)
      ⟨[Colour.from_rgb 255 0 255 0, ⟨1, 0, 0, 255⟩]⟩ (by simp)⟩

/-- C6: every bank produced by `optimise_palettes` carries in its first slot
the configured transparent colour when one was supplied at construction, and
otherwise the sentinel placeholder `Colour::from_rgb(255, 0, 255, 0)`. -/
theorem C6_transparent_slot_reservation (o : Palette16Optimiser)
    (r : Palette16OptimisationResults) (h : o.optimise_palettes = .ok r) :
    ∀ b ∈ r.optimised_palettes,
      b.colours.head? =
        some (o.transparent_colour.getD (Colour.from_rgb 255 0 255 0)) := by
  intro b hb
  rcases optimiseLoop_ok_banks_from o.palettes o.colours o.transparent_colour
      _ _ _ _ r h b hb with hmem | ⟨u, hu⟩
  · exact absurd hmem (by simp)
  · exact find_maximal_core_ok_head _ _ _ _ hu

theorem C6_witness :
    (⟨[Colour.from_rgb 7 7 7 0, ⟨1, 0, 0, 255⟩]⟩ : Palette16).colours.head? =
      some ((some (Colour.from_rgb 7 7 7 0)).getD (Colour.from_rgb 255 0 255 0)) :=
  C6_transparent_slot_reservation
    ⟨[⟨[⟨1, 0, 0, 255⟩]⟩], [⟨1, 0, 0, 255⟩], some (Colour.from_rgb 7 7 7 0)⟩
    ⟨[⟨[Colour.from_rgb 7 7 7 0, ⟨1, 0, 0, 255⟩]⟩], [0], some (Colour.from_rgb 7 7 7 0)⟩
    (by rfl) ⟨[Colour.from_rgb 7 7 7 0, ⟨1, 0, 0, 255⟩]⟩ (by simp)

/-! ## Claim C9 -/

/-- Specification of the `position` lookup used by `colour_index`: with a
start accumulator `k`, the search returns `none` exactly when the colour is
absent, and otherwise `k` plus the first matching offset. -/
theorem findIdxOpt_spec (x d : Colour) :
    ∀ (l : List Colour) (k : Nat),
      (l.findIdx? (fun c => decide (c = x)) k = none ↔ x ∉ l) ∧
      (∀ i, l.findIdx? (fun c => decide (c = x)) k = some i →
        k ≤ i ∧ i - k < l.length ∧ l.getD (i - k) d = x ∧
        ∀ j < i - k, l.getD j d ≠ x) := by
  intro l
  induction l with
  | nil =>
    intro k
    refine ⟨by simp [List.findIdx?_nil], ?_⟩
    intro i h
    exact absurd h (by simp [List.findIdx?_nil])
  | cons a l ih =>
    intro k
    rw [List.findIdx?_cons]
    by_cases hax : a = x
    · rw [if_pos (by simp [hax])]
      constructor
      · simp [hax]
      · intro i h
        injection h with h
        refine ⟨Nat.le_of_eq h, ?_, ?_, ?_⟩
        · rw [← h, Nat.sub_self]; simp
        · rw [← h, Nat.sub_self, List.getD_cons_zero, hax]
        · intro j hj
          rw [← h, Nat.sub_self] at hj
          exact absurd hj (Nat.not_lt_zero j)
    · rw [if_neg (by simp [hax])]
      constructor
      · rw [(ih (k + 1)).1]
        simp only [List.mem_cons, not_or]
        exact ⟨fun h => ⟨fun hx => hax hx.symm, h⟩, fun h => h.2⟩
      · intro i h
        obtain ⟨hk, hlt, hget, hfirst⟩ := (ih (k + 1)).2 i h
        have hik : i - k = (i - (k + 1)) + 1 := by omega
        refine ⟨by omega, ?_, ?_, ?_⟩
        · rw [hik]; simpa using hlt
        · rw [hik, List.getD_cons_succ]; exact hget
        · intro j hj
          cases j with
          | zero => rw [List.getD_cons_zero]; exact hax
          | succ j =>
            rw [List.getD_cons_succ]
            rw [hik] at hj
            exact hfirst j (by omega)

/-- C9: `colour_index c tc` performs a positional lookup of `c`, redirected
to the override colour when `c` is transparent (alpha = 0) and an override is
supplied.  It fails exactly when the (possibly redirected) colour is absent,
and on success returns that colour's first slot. -/
theorem C9_colour_index_redirection (p : Palette16) (c : Colour)
    (tc : Option Colour) (hp : p.colours.length ≤ 16) :
    ((∃ e, p.colour_index c tc = .error e) ↔
      (if c.a = 0 then tc.getD c else c) ∉ p.colours) ∧
    (∀ i, p.colour_index c tc = .ok i →
      i < p.colours.length ∧
      p.colours.getD i (Colour.from_rgb 0 0 0 0) =
        (if c.a = 0 then tc.getD c else c) ∧
      ∀ j < i,
        p.colours.getD j (Colour.from_rgb 0 0 0 0) ≠
          (if c.a = 0 then tc.getD c else c)) := by
  have htarget :
      (match tc, c.is_transparent with
        | some t, true => t
        | _, _ => c) = (if c.a = 0 then tc.getD c else c) := by
    by_cases ha : c.a = 0 <;> cases tc <;>
      simp [Colour.is_transparent, ha]
  unfold Palette16.colour_index
  simp only [htarget]
  set target := if c.a = 0 then tc.getD c else c with htdef
  cases hidx : p.colours.findIdx? (fun x => decide (x = target)) with
  | none =>
    refine ⟨⟨fun _ => ?_, fun _ => ⟨.colourIndexMissing, rfl⟩⟩, ?_⟩
    · exact ((findIdxOpt_spec target (Colour.from_rgb 0 0 0 0) p.colours 0).1).mp hidx
    · intro i h
      exact absurd h (by simp)
  | some i =>
    obtain ⟨-, hlt, hget, hfirst⟩ :=
      (findIdxOpt_spec target (Colour.from_rgb 0 0 0 0) p.colours 0).2 i hidx
    rw [Nat.sub_zero] at hlt hget hfirst
    have hmem : target ∈ p.colours := by
      by_contra hnm
      have hnone :=
        ((findIdxOpt_spec target (Colour.from_rgb 0 0 0 0) p.colours 0).1).mpr hnm
      rw [hnone] at hidx
      exact absurd hidx (by simp)
    refine ⟨⟨fun he => ?_, fun hnm => absurd hmem hnm⟩, ?_⟩
    · exact absurd he.choose_spec (by simp)
    · intro j h
      injection h with h
      have hmod : i % 256 = i := Nat.mod_eq_of_lt (by omega)
      rw [← h, hmod]
      exact ⟨hlt, hget, hfirst⟩

theorem C9_witness :
    (⟨[⟨9, 9, 9, 255⟩, ⟨3, 3, 3, 255⟩]⟩ : Palette16).colour_index ⟨5, 5, 5, 0⟩
        (some ⟨9, 9, 9, 255⟩) = .ok 0 ∧
      (⟨[⟨9, 9, 9, 255⟩, ⟨3, 3, 3, 255⟩]⟩ : Palette16).colours.getD 0
        (Colour.from_rgb 0 0 0 0) = ⟨9, 9, 9, 255⟩ := by
  refine ⟨by rfl, ?_⟩
  have h :=
    (C9_colour_index_redirection ⟨[⟨9, 9, 9, 255⟩, ⟨3, 3, 3, 255⟩]⟩ ⟨5, 5, 5, 0⟩
      (some ⟨9, 9, 9, 255⟩) (by decide)).2 0 (by rfl)
  rw [h.2.1]
  decide

/-! ## Claim C3: the greedy tie-break -/

/-- Specification of the `max_by` fold over an enumerated suffix: starting
from an accumulator whose index lies below every enumerated index, the fold
returns a maximal entry, and among equal maxima the one with the **largest**
index (Rust's `max_by` keeps the accumulator only when strictly greater). -/
theorem maxByStep_enumFrom_spec :
    ∀ (l : List Nat) (n : Nat) (init : Nat × Nat), init.1 < n →
      ((List.enumFrom n l).foldl maxByStep init = init ∨
        (n ≤ ((List.enumFrom n l).foldl maxByStep init).1 ∧
          ((List.enumFrom n l).foldl maxByStep init).1 < n + l.length ∧
          l.getD (((List.enumFrom n l).foldl maxByStep init).1 - n) 0 =
            ((List.enumFrom n l).foldl maxByStep init).2)) ∧
      init.2 ≤ ((List.enumFrom n l).foldl maxByStep init).2 ∧
      (∀ j < l.length,
        l.getD j 0 ≤ ((List.enumFrom n l).foldl maxByStep init).2) ∧
      (init.2 = ((List.enumFrom n l).foldl maxByStep init).2 →
        init.1 ≤ ((List.enumFrom n l).foldl maxByStep init).1) ∧
      (∀ j < l.length,
        l.getD j 0 = ((List.enumFrom n l).foldl maxByStep init).2 →
        n + j ≤ ((List.enumFrom n l).foldl maxByStep init).1) := by
  intro l
  induction l with
  | nil =>
    intro n init hinit
    refine ⟨Or.inl rfl, Nat.le_refl _, ?_, fun _ => Nat.le_refl _, ?_⟩
    · intro j hj; exact absurd hj (by simp)
    · intro j hj; exact absurd hj (by simp)
  | cons a l ih =>
    intro n init hinit
    simp only [List.enumFrom, List.foldl_cons]
    by_cases ha : a < init.2
    · -- the accumulator is kept
      have hpick : maxByStep init (n, a) = init := if_pos ha
      rw [hpick]
      obtain ⟨hmem, hle, hall, heq, hlast⟩ := ih (n + 1) init (by omega)
      refine ⟨?_, hle, ?_, heq, ?_⟩
      · rcases hmem with h | ⟨h1, h2, h3⟩
        · exact Or.inl h
        · refine Or.inr ⟨by omega, by simp only [List.length_cons]; omega, ?_⟩
          have hsub : ((List.enumFrom (n + 1) l).foldl maxByStep init).1 - n =
              (((List.enumFrom (n + 1) l).foldl maxByStep init).1 - (n + 1)) + 1 := by
            omega
          rw [hsub, List.getD_cons_succ]
          exact h3
      · intro j hj
        cases j with
        | zero =>
          rw [List.getD_cons_zero]
          exact Nat.le_trans (Nat.le_of_lt ha) hle
        | succ j =>
          rw [List.getD_cons_succ]
          exact hall j (by simpa using hj)
      · intro j hj hjv
        cases j with
        | zero =>
          rw [List.getD_cons_zero] at hjv
          exact absurd (hjv ▸ Nat.lt_of_lt_of_le ha hle) (Nat.lt_irrefl _)
        | succ j =>
          rw [List.getD_cons_succ] at hjv
          have := hlast j (by simpa using hj) hjv
          omega
    · -- the new entry is taken
      have hpick : maxByStep init (n, a) = (n, a) := if_neg ha
      rw [hpick]
      have hia : init.2 ≤ a := Nat.le_of_not_lt ha
      obtain ⟨hmem, hle, hall, heq, hlast⟩ := ih (n + 1) (n, a) (by omega)
      replace hle : a ≤ ((List.enumFrom (n + 1) l).foldl maxByStep (n, a)).2 := hle
      replace heq : a = ((List.enumFrom (n + 1) l).foldl maxByStep (n, a)).2 →
          n ≤ ((List.enumFrom (n + 1) l).foldl maxByStep (n, a)).1 := heq
      refine ⟨?_, Nat.le_trans hia hle, ?_, ?_, ?_⟩
      · rcases hmem with h | ⟨h1, h2, h3⟩
        · rw [h]
          refine Or.inr ⟨Nat.le_refl n, ?_, ?_⟩
          · show n < n + (a :: l).length
            simp
          · show (a :: l).getD (n - n) 0 = a
            rw [Nat.sub_self, List.getD_cons_zero]
        · refine Or.inr ⟨by omega, by simp only [List.length_cons]; omega, ?_⟩
          have hsub : ((List.enumFrom (n + 1) l).foldl maxByStep (n, a)).1 - n =
              (((List.enumFrom (n + 1) l).foldl maxByStep (n, a)).1 - (n + 1)) + 1 := by
            omega
          rw [hsub, List.getD_cons_succ]
          exact h3
      · intro j hj
        cases j with
        | zero => rw [List.getD_cons_zero]; exact hle
        | succ j =>
          rw [List.getD_cons_succ]
          exact hall j (by simpa using hj)
      · intro hinit2
        have haa : a = ((List.enumFrom (n + 1) l).foldl maxByStep (n, a)).2 := by
          omega
        have := heq haa
        omega
      · intro j hj hjv
        cases j with
        | zero =>
          rw [List.getD_cons_zero] at hjv
          have := heq hjv
          omega
        | succ j =>
          rw [List.getD_cons_succ] at hjv
          have := hlast j (by simpa using hj) hjv
          omega

/-- C3 (amended): in the inner greedy step the selected index is an argmax of
the tally list, and among equal maxima it is the **highest** index (the code
uses Rust's `max_by`, which returns the last maximal element), not the lowest
index the claim states. -/
theorem C3_amended_tie_break_last (l : List Nat) (h : l ≠ []) :
    rustMaxByIdx l < l.length ∧
    (∀ j < l.length, l.getD j 0 ≤ l.getD (rustMaxByIdx l) 0) ∧
    (∀ j < l.length, l.getD j 0 = l.getD (rustMaxByIdx l) 0 →
      j ≤ rustMaxByIdx l) := by
  cases l with
  | nil => exact absurd rfl h
  | cons u rest =>
    have hred : rustMaxByIdx (u :: rest) =
        ((List.enumFrom 1 rest).foldl maxByStep (0, u)).1 := rfl
    obtain ⟨hmem, hle, hall, heq, hlast⟩ :=
      maxByStep_enumFrom_spec rest 1 (0, u) (by omega)
    set res := (List.enumFrom 1 rest).foldl maxByStep (0, u) with hres
    have hres1 : res.1 < (u :: rest).length ∧ (u :: rest).getD res.1 0 = res.2 := by
      rcases hmem with hm | ⟨h1, h2, h3⟩
      · rw [hm]; exact ⟨by simp, by simp⟩
      · refine ⟨by simp only [List.length_cons]; omega, ?_⟩
        have hsub : res.1 = (res.1 - 1) + 1 := by omega
        rw [hsub, List.getD_cons_succ]
        exact h3
    rw [hred]
    refine ⟨hres1.1, ?_, ?_⟩
    · intro j hj
      rw [hres1.2]
      cases j with
      | zero => rw [List.getD_cons_zero]; exact hle
      | succ j => rw [List.getD_cons_succ]; exact hall j (by simpa using hj)
    · intro j hj hjv
      rw [hres1.2] at hjv
      cases j with
      | zero => omega
      | succ j =>
        rw [List.getD_cons_succ] at hjv
        have := hlast j (by simpa using hj) hjv
        omega

/-- C3 (counterexample to the claim as stated): with global colour list
`[c0, c1]` and two singleton input palettes `{c0}`, `{c1}`, the first greedy
step tallies 1 for both colour indices 0 and 1 — a tie — and the code selects
index 1, not the lowest index 0; consequently the produced bank lists `c1`
before `c0`. -/
theorem C3_counterexample :
    (fmTally [⟨10, 0, 0, 255⟩, ⟨20, 0, 0, 255⟩] ⟨[Colour.from_rgb 255 0 255 0]⟩
        [⟨[⟨10, 0, 0, 255⟩]⟩, ⟨[⟨20, 0, 0, 255⟩]⟩]).1.getD 0 0 = 1 ∧
    (fmTally [⟨10, 0, 0, 255⟩, ⟨20, 0, 0, 255⟩] ⟨[Colour.from_rgb 255 0 255 0]⟩
        [⟨[⟨10, 0, 0, 255⟩]⟩, ⟨[⟨20, 0, 0, 255⟩]⟩]).1.getD 1 0 = 1 ∧
    rustMaxByIdx (fmTally [⟨10, 0, 0, 255⟩, ⟨20, 0, 0, 255⟩]
        ⟨[Colour.from_rgb 255 0 255 0]⟩
        [⟨[⟨10, 0, 0, 255⟩]⟩, ⟨[⟨20, 0, 0, 255⟩]⟩]).1 = 1 ∧
    find_maximal_core [⟨10, 0, 0, 255⟩, ⟨20, 0, 0, 255⟩] none
        [⟨[⟨10, 0, 0, 255⟩]⟩, ⟨[⟨20, 0, 0, 255⟩]⟩] =
      .ok ⟨[Colour.from_rgb 255 0 255 0, ⟨20, 0, 0, 255⟩, ⟨10, 0, 0, 255⟩]⟩ :=
  ⟨rfl, rfl, rfl, rfl⟩

theorem C3_witness :
    rustMaxByIdx [1, 2, 0, 2] < 4 ∧
      (∀ j < 4, [1, 2, 0, 2].getD j 0 ≤ [1, 2, 0, 2].getD (rustMaxByIdx [1, 2, 0, 2]) 0) ∧
      (∀ j < 4, [1, 2, 0, 2].getD j 0 = [1, 2, 0, 2].getD (rustMaxByIdx [1, 2, 0, 2]) 0 →
        j ≤ rustMaxByIdx [1, 2, 0, 2]) :=
  C3_amended_tie_break_last [1, 2, 0, 2] (by simp)

/-! ## Claims C1 and C5: the assignment invariant of the covering loop -/

theorem getD_append_lt {α : Type} (l l2 : List α) (d : α) (i : Nat)
    (h : i < l.length) : (l ++ l2).getD i d = l.getD i d := by
  rw [List.getD_eq_getElem (l ++ l2) d (by rw [List.length_append]; omega),
    List.getD_eq_getElem l d h, List.getElem_append, dif_pos h]

theorem getD_append_len {α : Type} (l : List α) (x d : α) :
    (l ++ [x]).getD l.length d = x := by
  rw [List.getD_eq_getElem (l ++ [x]) d (by simp), List.getElem_append]
  simp

theorem getD_replicate_zero : ∀ (n i : Nat), (List.replicate n 0).getD i 0 = 0 := by
  intro n
  induction n with
  | zero => intro i; rfl
  | succ n ih =>
    intro i
    cases i with
    | zero => rfl
    | succ i => exact ih i

theorem getD_zipWith_fun (f : Palette16 → Nat → Nat) :
    ∀ (ps : List Palette16) (as : List Nat) (i : Nat),
      i < ps.length → as.length = ps.length →
      (List.zipWith f ps as).getD i 0 = f (ps.getD i Palette16.new) (as.getD i 0) := by
  intro ps
  induction ps with
  | nil => intro as i hi _; exact absurd hi (by simp)
  | cons p ps ih =>
    intro as i hi hlen
    cases as with
    | nil => exact absurd hlen.symm (by simp)
    | cons a as =>
      cases i with
      | zero => rfl
      | succ i =>
        simp only [List.zipWith_cons_cons, List.getD_cons_succ]
        exact ih as i (by simpa using hi) (by simpa using hlen)

theorem mem_foldl_dedupFirst {α : Type} [DecidableEq α] (x : α) :
    ∀ (l acc : List α),
      (x ∈ l.foldl (fun acc y => if y ∈ acc then acc else acc ++ [y]) acc ↔
        x ∈ acc ∨ x ∈ l) := by
  intro l
  induction l with
  | nil => intro acc; simp
  | cons a l ih =>
    intro acc
    rw [List.foldl_cons, ih]
    by_cases ha : a ∈ acc
    · rw [if_pos ha]
      constructor
      · rintro (h | h)
        · exact Or.inl h
        · exact Or.inr (List.mem_cons_of_mem a h)
      · rintro (h | h)
        · exact Or.inl h
        · rcases List.mem_cons.mp h with rfl | h
          · exact Or.inl ha
          · exact Or.inr h
    · rw [if_neg ha]
      constructor
      · rintro (h | h)
        · rcases List.mem_append.mp h with h | h
          · exact Or.inl h
          · have hxa : x = a := List.mem_singleton.mp h
            exact Or.inr (by rw [hxa]; exact List.mem_cons_self a l)
        · exact Or.inr (List.mem_cons_of_mem a h)
      · rintro (h | h)
        · exact Or.inl (List.mem_append.mpr (Or.inl h))
        · rcases List.mem_cons.mp h with rfl | h
          · exact Or.inl (List.mem_append.mpr (Or.inr (List.mem_singleton.mpr rfl)))
          · exact Or.inr h

theorem mem_dedupFirst {α : Type} [DecidableEq α] (x : α) (l : List α) :
    x ∈ dedupFirst l ↔ x ∈ l := by
  unfold dedupFirst
  rw [mem_foldl_dedupFirst]
  simp

/-- Predicate: `a` is the index of the last bank in `banks` covering `pal` (and some
bank covers it). -/
def greatestCover (pal : Palette16) (banks : List Palette16) (a : Nat) : Prop :=
  a < banks.length ∧
  pal.is_satisfied_by (banks.getD a Palette16.new) = true ∧
  ∀ j < banks.length,
    pal.is_satisfied_by (banks.getD j Palette16.new) = true → j ≤ a

/-- Invariant carried by one assignment slot through the covering loop:
either it already names the last covering bank, or no bank covers the
palette yet, the slot still holds the initial 0, and the palette is still in
the unsatisfied working set. -/
def assignInv (pal : Palette16) (banks unsat : List Palette16) (a : Nat) : Prop :=
  greatestCover pal banks a ∨
  ((∀ j < banks.length,
      pal.is_satisfied_by (banks.getD j Palette16.new) = false) ∧
    a = 0 ∧ pal ∈ unsat)

/-- Main loop invariant: a successful run of the covering loop turns the
per-slot invariant into the final guarantee that every assignment slot names
the last bank covering its palette. -/
theorem optimiseLoop_ok_greatestCover (palettes : List Palette16)
    (gcolours : List Colour) (tc : Option Colour) :
    ∀ (fuel : Nat) (unsat : List Palette16) (assignments : List Nat)
      (optimised : List Palette16) (r : Palette16OptimisationResults),
      optimiseLoop palettes gcolours tc fuel unsat assignments optimised = .ok r →
      assignments.length = palettes.length →
      (∀ i, i < palettes.length →
        assignInv (palettes.getD i Palette16.new) optimised unsat
          (assignments.getD i 0)) →
      r.assignments.length = palettes.length ∧
      ∀ i, i < palettes.length →
        greatestCover (palettes.getD i Palette16.new) r.optimised_palettes
          (r.assignments.getD i 0) := by
  intro fuel
  induction fuel with
  | zero => intro _ _ _ r h; exact absurd h (by simp [optimiseLoop])
  | succ n ih =>
    intro unsat assignments optimised r h hlen hinv
    unfold optimiseLoop at h
    simp only [] at h
    split at h
    · rename_i hempty
      have hnil : unsat = [] := List.isEmpty_iff.mp hempty
      injection h with h
      rw [← h]
      refine ⟨hlen, ?_⟩
      intro i hi
      rcases hinv i hi with hgc | ⟨_, _, hmem⟩
      · exact hgc
      · rw [hnil] at hmem
        exact absurd hmem (by simp)
    · split at h
      · exact absurd h (by simp)
      · rename_i palette hfm
        split at h
        · exact absurd h (by simp)
        · refine ih _ _ _ r h ?_ ?_
          · rw [List.length_zipWith, hlen]
            exact Nat.min_self _
          · intro i hi
            have hpt :
                (List.zipWith
                  (fun overall_palette a =>
                    if overall_palette.is_satisfied_by palette then
                      optimised.length
                    else a)
                  palettes assignments).getD i 0 =
                if (palettes.getD i Palette16.new).is_satisfied_by palette then
                  optimised.length
                else assignments.getD i 0 :=
              getD_zipWith_fun _ palettes assignments i hi hlen
            rw [hpt]
            by_cases hs :
                (palettes.getD i Palette16.new).is_satisfied_by palette = true
            · rw [if_pos hs]
              left
              refine ⟨by simp, ?_, ?_⟩
              · rw [getD_append_len]
                exact hs
              · intro j hj _
                rw [List.length_append, List.length_singleton] at hj
                omega
            · rw [if_neg hs]
              rcases hinv i hi with ⟨ha1, ha2, ha3⟩ | ⟨hn, h0, hmem⟩
              · left
                refine ⟨by rw [List.length_append]; omega, ?_, ?_⟩
                · rw [getD_append_lt _ _ _ _ ha1]
                  exact ha2
                · intro j hj hsat
                  rw [List.length_append, List.length_singleton] at hj
                  rcases Nat.lt_or_ge j optimised.length with hjl | hjl
                  · rw [getD_append_lt _ _ _ _ hjl] at hsat
                    exact ha3 j hjl hsat
                  · have hje : j = optimised.length := by omega
                    rw [hje, getD_append_len] at hsat
                    exact absurd hsat hs
              · right
                refine ⟨?_, h0, ?_⟩
                · intro j hj
                  rw [List.length_append, List.length_singleton] at hj
                  rcases Nat.lt_or_ge j optimised.length with hjl | hjl
                  · rw [getD_append_lt _ _ _ _ hjl]
                    exact hn j hjl
                  · have hje : j = optimised.length := by omega
                    rw [hje, getD_append_len]
                    exact Bool.eq_false_iff.mpr (fun hc => hs hc)
                · rw [List.mem_filter]
                  refine ⟨hmem, ?_⟩
                  simp only [Bool.not_eq_true']
                  exact Bool.eq_false_iff.mpr (fun hc => hs hc)

/-- C1: in every successful result, each input palette's colour set is a
subset of the bank its assignment entry points to (and that entry is a valid
bank index). -/
theorem C1_subset_closure (o : Palette16Optimiser)
    (r : Palette16OptimisationResults) (h : o.optimise_palettes = .ok r) :
    ∀ i, i < o.palettes.length →
      r.assignments.getD i 0 < r.optimised_palettes.length ∧
      (o.palettes.getD i Palette16.new).is_satisfied_by
        (r.optimised_palettes.getD (r.assignments.getD i 0) Palette16.new) =
        true := by
  unfold Palette16Optimiser.optimise_palettes at h
  have hmain := optimiseLoop_ok_greatestCover o.palettes o.colours
    o.transparent_colour _ _ _ _ r h (by simp) ?_
  · intro i hi
    exact ⟨(hmain.2 i hi).1, (hmain.2 i hi).2.1⟩
  · intro i hi
    right
    refine ⟨?_, getD_replicate_zero _ _, ?_⟩
    · intro j hj; exact absurd hj (by simp)
    · rw [mem_dedupFirst]
      rw [List.getD_eq_getElem _ _ hi]
      exact List.getElem_mem hi

theorem C1_witness :
    (0 : Nat) < 1 ∧
      (Palette16.mk [⟨1, 0, 0, 255⟩]).is_satisfied_by
        ⟨[Colour.from_rgb 255 0 255 0, ⟨1, 0, 0, 255⟩]⟩ = true := by
  have h := C1_subset_closure ⟨[⟨[⟨1, 0, 0, 255⟩]⟩], [⟨1, 0, 0, 255⟩], none⟩
    ⟨[⟨[Colour.from_rgb 255 0 255 0, ⟨1, 0, 0, 255⟩]⟩], [0], none⟩ (by rfl)
    0 (by decide)
  simpa using h

/-- C5: in every successful result, each assignment entry is at least the
index of **every** bank covering its palette — together with C1 it is the
index of the last (highest-index) covering bank, because each outer
iteration re-scans all input palettes and overwrites earlier assignments. -/
theorem C5_last_covering_bank_wins (o : Palette16Optimiser)
    (r : Palette16OptimisationResults) (h : o.optimise_palettes = .ok r) :
    ∀ i, i < o.palettes.length →
      ∀ j, j < r.optimised_palettes.length →
        (o.palettes.getD i Palette16.new).is_satisfied_by
          (r.optimised_palettes.getD j Palette16.new) = true →
        j ≤ r.assignments.getD i 0 := by
  unfold Palette16Optimiser.optimise_palettes at h
  have hmain := optimiseLoop_ok_greatestCover o.palettes o.colours
    o.transparent_colour _ _ _ _ r h (by simp) ?_
  · intro i hi j hj hsat
    exact (hmain.2 i hi).2.2 j hj hsat
  · intro i hi
    right
    refine ⟨?_, getD_replicate_zero _ _, ?_⟩
    · intro j hj; exact absurd hj (by simp)
    · rw [mem_dedupFirst]
      rw [List.getD_eq_getElem _ _ hi]
      exact List.getElem_mem hi

theorem C5_witness :
    (0 : Nat) ≤ [0].getD 0 0 :=
  C5_last_covering_bank_wins ⟨[⟨[⟨1, 0, 0, 255⟩]⟩], [⟨1, 0, 0, 255⟩], none⟩
    ⟨[⟨[Colour.from_rgb 255 0 255 0, ⟨1, 0, 0, 255⟩]⟩], [0], none⟩ (by rfl)
    0 (by decide) 0 (by decide) (by decide)

/-! ## Claim C7: registering the same palette twice -/

theorem mem_mergeColours_left (x : Colour) :
    ∀ (l cs : List Colour), x ∈ cs → x ∈ mergeColours cs l := by
  intro l
  induction l with
  | nil => intro cs h; exact h
  | cons c l ih =>
    intro cs h
    unfold mergeColours
    rw [List.foldl_cons]
    refine ih _ ?_
    split
    · exact h
    · exact List.mem_append.mpr (Or.inl h)

theorem mem_mergeColours_right (x : Colour) :
    ∀ (l cs : List Colour), x ∈ l → x ∈ mergeColours cs l := by
  intro l
  induction l with
  | nil => intro cs h; exact absurd h (by simp)
  | cons c l ih =>
    intro cs h
    rcases List.mem_cons.mp h with rfl | h
    · unfold mergeColours
      rw [List.foldl_cons]
      refine mem_mergeColours_left x l _ ?_
      split
      · assumption
      · exact List.mem_append.mpr (Or.inr (List.mem_singleton.mpr rfl))
    · unfold mergeColours
      rw [List.foldl_cons]
      exact ih _ h

theorem mergeColours_subset_eq :
    ∀ (l cs : List Colour), (∀ c ∈ l, c ∈ cs) → mergeColours cs l = cs := by
  intro l
  induction l with
  | nil => intro cs _; rfl
  | cons c l ih =>
    intro cs h
    unfold mergeColours
    rw [List.foldl_cons, if_pos (h c (List.mem_cons_self c l))]
    exact ih cs (fun x hx => h x (List.mem_cons_of_mem c hx))

/-- Field-level description of a successful `add_palette`. -/
theorem add_palette_ok (o : Palette16Optimiser) (p : Palette16)
    (o1 : Palette16Optimiser) (h : o.add_palette p = .ok o1) :
    o1.palettes = o.palettes ++ [p] ∧
    o1.colours = mergeColours o.colours p.colours ∧
    o1.transparent_colour = o.transparent_colour := by
  unfold Palette16Optimiser.add_palette at h
  simp only [] at h
  split at h
  · exact absurd h (by simp)
  · injection h with h
    rw [← h]
    exact ⟨rfl, rfl, rfl⟩

theorem dedupFirst_append_mem {α : Type} [DecidableEq α] (l : List α) (p : α)
    (hp : p ∈ l) : dedupFirst (l ++ [p]) = dedupFirst l := by
  have hmem : p ∈ l.foldl (fun acc y => if y ∈ acc then acc else acc ++ [y]) [] :=
    (mem_foldl_dedupFirst p l []).mpr (Or.inr hp)
  unfold dedupFirst
  rw [List.foldl_append, List.foldl_cons, if_pos hmem, List.foldl_nil]

/-- The covering loop preserves the length of the assignment array. -/
theorem optimiseLoop_ok_assignments_length (palettes : List Palette16)
    (gcolours : List Colour) (tc : Option Colour) :
    ∀ (fuel : Nat) (unsat : List Palette16) (assignments : List Nat)
      (optimised : List Palette16) (r : Palette16OptimisationResults),
      optimiseLoop palettes gcolours tc fuel unsat assignments optimised = .ok r →
      assignments.length = palettes.length →
      r.assignments.length = palettes.length := by
  intro fuel
  induction fuel with
  | zero => intro _ _ _ r h; exact absurd h (by simp [optimiseLoop])
  | succ n ih =>
    intro unsat assignments optimised r h hlen
    unfold optimiseLoop at h
    simp only [] at h
    split at h
    · injection h with h
      rw [← h]
      exact hlen
    · split at h
      · exact absurd h (by simp)
      · split at h
        · exact absurd h (by simp)
        · refine ih _ _ _ r h ?_
          rw [List.length_zipWith, hlen]
          exact Nat.min_self _

theorem getLastD_eq_getD (l : List Nat) (n : Nat) (h : l.length = n + 1) :
    l.getLast?.getD 0 = l.getD n 0 := by
  have hne : l ≠ [] := by
    intro hc
    rw [hc] at h
    exact absurd h (by simp)
  have hn : n = l.length - 1 := by omega
  subst hn
  rw [List.getLast?_eq_getLast l hne]
  simp only [Option.getD_some]
  rw [List.getLast_eq_getElem l hne, List.getD_eq_getElem l 0 (by omega)]

/-- Running the covering loop with the last input palette duplicated (and a
correspondingly duplicated assignment slot) produces the same outcome with
one extra assignment entry equal to the last one. -/
theorem optimiseLoop_snoc (gc : List Colour) (tc : Option Colour) (p : Palette16) :
    ∀ (fuel : Nat) (l1 : List Palette16) (bs : List Nat) (v : Nat)
      (unsat opt : List Palette16),
      l1.length = bs.length →
      optimiseLoop ((l1 ++ [p]) ++ [p]) gc tc fuel unsat ((bs ++ [v]) ++ [v]) opt =
        (optimiseLoop (l1 ++ [p]) gc tc fuel unsat (bs ++ [v]) opt).map
          (fun r =>
            ⟨r.optimised_palettes,
              r.assignments ++ [r.assignments.getLast?.getD 0],
              r.transparent_colour⟩) := by
  intro fuel
  induction fuel with
  | zero => intro l1 bs v unsat opt _; rfl
  | succ n ih =>
    intro l1 bs v unsat opt hlen
    unfold optimiseLoop
    simp only []
    by_cases hempty : unsat.isEmpty = true
    · rw [if_pos hempty, if_pos hempty]
      simp [Except.map, List.getLast?_concat]
    · rw [if_neg hempty, if_neg hempty]
      cases hfm : find_maximal_core gc tc unsat with
      | error e => rfl
      | ok palette =>
        simp only []
        rw [List.zipWith_append _ (l1 ++ [p]) [p] (bs ++ [v]) [v] (by simp [hlen]),
          List.zipWith_append _ l1 [p] bs [v] hlen]
        simp only [List.zipWith_cons_cons, List.zipWith_nil_right]
        by_cases h16 :
            (opt ++ [palette]).length = MAX_COLOURS / MAX_COLOURS_PER_PALETTE
        · rw [if_pos h16, if_pos h16]; rfl
        · rw [if_neg h16, if_neg h16]
          apply ih
          rw [List.length_zipWith, hlen]
          exact (Nat.min_self _).symm

/-- C7: registering the same palette twice, compared with once, leaves the
flattened global colour list unchanged and yields the same bank list; the
assignments array only gains one extra entry equal to the entry of the first
copy (which sits at index `o.palettes.length`). -/
theorem C7_dedup_idempotence (o o1 o2 : Palette16Optimiser) (p : Palette16)
    (r1 r2 : Palette16OptimisationResults)
    (h1 : o.add_palette p = .ok o1) (h2 : o1.add_palette p = .ok o2)
    (hr1 : o1.optimise_palettes = .ok r1)
    (hr2 : o2.optimise_palettes = .ok r2) :
    o2.colours.length = o1.colours.length ∧
    r2.optimised_palettes = r1.optimised_palettes ∧
    r2.assignments =
      r1.assignments ++ [r1.assignments.getD o.palettes.length 0] := by
  obtain ⟨hp1, hc1, ht1⟩ := add_palette_ok o p o1 h1
  obtain ⟨hp2, hc2, ht2⟩ := add_palette_ok o1 p o2 h2
  have hpcol : ∀ c ∈ p.colours, c ∈ o1.colours := by
    intro c hc
    rw [hc1]
    exact mem_mergeColours_right c p.colours o.colours hc
  have hcol : o2.colours = o1.colours := by
    rw [hc2]
    exact mergeColours_subset_eq p.colours o1.colours hpcol
  have hpmem : p ∈ o1.palettes := by rw [hp1]; simp
  have hunsat : dedupFirst o2.palettes = dedupFirst o1.palettes := by
    rw [hp2]
    exact dedupFirst_append_mem o1.palettes p hpmem
  have hr1u := hr1
  unfold Palette16Optimiser.optimise_palettes at hr1u
  have hlen1 : r1.assignments.length = o1.palettes.length :=
    optimiseLoop_ok_assignments_length o1.palettes o1.colours
      o1.transparent_colour _ _ _ _ r1 hr1u (by simp)
  have hkey : o2.optimise_palettes = (o1.optimise_palettes).map
      (fun r =>
        ⟨r.optimised_palettes,
          r.assignments ++ [r.assignments.getLast?.getD 0],
          r.transparent_colour⟩) := by
    unfold Palette16Optimiser.optimise_palettes
    rw [hcol, ht2, hunsat, hp2, hp1]
    have hlenrep2 :
        List.replicate (((o.palettes ++ [p]) ++ [p]).length) (0 : Nat) =
          (List.replicate o.palettes.length 0 ++ [0]) ++ [0] := by
      simp only [List.length_append, List.length_singleton, List.replicate_succ']
    have hlenrep1 :
        List.replicate ((o.palettes ++ [p]).length) (0 : Nat) =
          List.replicate o.palettes.length 0 ++ [0] := by
      simp only [List.length_append, List.length_singleton, List.replicate_succ']
    rw [hlenrep2, hlenrep1]
    exact optimiseLoop_snoc o1.colours o1.transparent_colour p _ o.palettes
      (List.replicate o.palettes.length 0) 0 _ [] (by simp)
  rw [hr1, hr2] at hkey
  injection hkey with hkey
  simp only [] at hkey
  have hlast : r1.assignments.getLast?.getD 0 =
      r1.assignments.getD o.palettes.length 0 := by
    refine getLastD_eq_getD _ _ ?_
    rw [hlen1, hp1, List.length_append, List.length_singleton]
  refine ⟨by rw [hcol], ?_, ?_⟩
  · rw [hkey]
  · rw [hkey, hlast]

theorem C7_witness :
    ([⟨1, 0, 0, 255⟩] : List Colour).length =
        ([⟨1, 0, 0, 255⟩] : List Colour).length ∧
      [(⟨[Colour.from_rgb 255 0 255 0, ⟨1, 0, 0, 255⟩]⟩ : Palette16)] =
        [(⟨[Colour.from_rgb 255 0 255 0, ⟨1, 0, 0, 255⟩]⟩ : Palette16)] ∧
      ([0, 0] : List Nat) = [0] ++ [[0].getD 0 0] :=
  C7_dedup_idempotence (Palette16Optimiser.new none)
    ⟨[⟨[⟨1, 0, 0, 255⟩]⟩], [⟨1, 0, 0, 255⟩], none⟩
    ⟨[⟨[⟨1, 0, 0, 255⟩]⟩, ⟨[⟨1, 0, 0, 255⟩]⟩], [⟨1, 0, 0, 255⟩], none⟩
    ⟨[⟨1, 0, 0, 255⟩]⟩
    ⟨[⟨[Colour.from_rgb 255 0 255 0, ⟨1, 0, 0, 255⟩]⟩], [0], none⟩
    ⟨[⟨[Colour.from_rgb 255 0 255 0, ⟨1, 0, 0, 255⟩]⟩], [0, 0], none⟩
    (by rfl) (by rfl) (by rfl) (by rfl)

/-! ## Hash-iteration-order irrelevance

In the Rust source the unsatisfied working set is a `HashSet<Palette16>`
whose iteration order is unspecified.  The embedding fixes one order (a
duplicate-free list); the lemmas below show the algorithm's outcome is
invariant under permuting that list, so the choice is immaterial and the
determinism property C4 is genuinely a property of the algorithm rather than
an artifact of the embedding. -/

theorem tallyColour_rightComm (gcolours : List Colour) (palette : Palette16) :
    RightCommutative (tallyColour gcolours palette) := by
  constructor
  intro st c c2
  unfold tallyColour
  by_cases h1 : c ∈ palette.colours
  · by_cases h2 : c2 ∈ palette.colours <;> simp [h1, h2]
  · by_cases h2 : c2 ∈ palette.colours
    · simp [h1, h2]
    · simp only [if_neg h1, if_neg h2]
      cases hf1 : gcolours.findIdx? (fun x => decide (x = c)) with
      | none =>
        cases hf2 : gcolours.findIdx? (fun x => decide (x = c2)) with
        | none => rfl
        | some j => rfl
      | some i =>
        cases hf2 : gcolours.findIdx? (fun x => decide (x = c2)) with
        | none => rfl
        | some j =>
          by_cases hij : i = j
          · subst hij; rfl
          · simp only [Prod.mk.injEq]
            constructor
            · have hgj : (st.1.set i (st.1.getD i 0 + 1)).getD j 0 = st.1.getD j 0 := by
                simp only [List.getD_eq_getElem?_getD, List.getElem?_set_ne hij]
              have hgi : (st.1.set j (st.1.getD j 0 + 1)).getD i 0 = st.1.getD i 0 := by
                simp only [List.getD_eq_getElem?_getD,
                  List.getElem?_set_ne (Ne.symm hij)]
              rw [hgj, hgi, List.set_comm _ _ _ hij]
            · trivial

theorem tallyPalette_rightComm (gcolours : List Colour) (palette : Palette16) :
    RightCommutative (tallyPalette gcolours palette) := by
  constructor
  intro st p q
  unfold tallyPalette
  by_cases h1 : MAX_COLOURS_PER_PALETTE < palette.union_length p
  · by_cases h2 : MAX_COLOURS_PER_PALETTE < palette.union_length q <;>
      simp [h1, h2]
  · by_cases h2 : MAX_COLOURS_PER_PALETTE < palette.union_length q
    · simp [h1, h2]
    · simp only [if_neg h1, if_neg h2]
      rw [← List.foldl_append, ← List.foldl_append]
      haveI := tallyColour_rightComm gcolours palette
      exact List.Perm.foldl_eq List.perm_append_comm st

/-- The tally is a set-function of the unsatisfied collection: permuting the
working list leaves it unchanged. -/
theorem fmTally_perm (gcolours : List Colour) (palette : Palette16)
    (u1 u2 : List Palette16) (h : u1.Perm u2) :
    fmTally gcolours palette u1 = fmTally gcolours palette u2 := by
  unfold fmTally
  haveI := tallyPalette_rightComm gcolours palette
  exact List.Perm.foldl_eq h _

theorem fmLoop_perm (gcolours : List Colour) (u1 u2 : List Palette16)
    (h : u1.Perm u2) :
    ∀ (fuel : Nat) (p : Palette16),
      fmLoop gcolours u1 fuel p = fmLoop gcolours u2 fuel p := by
  intro fuel
  induction fuel with
  | zero => intro p; rfl
  | succ n ih =>
    intro p
    unfold fmLoop
    simp only []
    rw [fmTally_perm gcolours p u1 u2 h]
    split
    · rfl
    · split
      · rfl
      · split
        · rfl
        · split
          · rfl
          · exact ih _

theorem find_maximal_core_perm (gcolours : List Colour) (tc : Option Colour)
    (u1 u2 : List Palette16) (h : u1.Perm u2) :
    find_maximal_core gcolours tc u1 = find_maximal_core gcolours tc u2 := by
  unfold find_maximal_core
  split
  · rfl
  · exact fmLoop_perm gcolours u1 u2 h _ _

/-- The covering loop's outcome is invariant under permuting the unsatisfied
working list: the embedding's fixed iteration order is immaterial, exactly as
required for the Rust `HashSet` to be modelled by a list. -/
theorem optimiseLoop_perm (palettes : List Palette16) (gcolours : List Colour)
    (tc : Option Colour) :
    ∀ (fuel : Nat) (u1 u2 : List Palette16) (assignments : List Nat)
      (optimised : List Palette16), u1.Perm u2 →
      optimiseLoop palettes gcolours tc fuel u1 assignments optimised =
        optimiseLoop palettes gcolours tc fuel u2 assignments optimised := by
  intro fuel
  induction fuel with
  | zero => intro _ _ _ _ _; rfl
  | succ n ih =>
    intro u1 u2 assignments optimised h
    unfold optimiseLoop
    simp only []
    have hemp : u1.isEmpty = u2.isEmpty := by
      have hl := h.length_eq
      cases u1 <;> cases u2 <;> simp_all
    rw [hemp, find_maximal_core_perm gcolours tc u1 u2 h]
    split
    · rfl
    · split
      · rfl
      · split
        · rfl
        · exact ih _ _ _ _ (h.filter _)

/-- Any iteration order of the hash set of registered palettes produces the
same public result as the embedding's first-seen order. -/
theorem optimise_palettes_hash_order_irrelevant (o : Palette16Optimiser)
    (unsat : List Palette16) (h : unsat.Perm (dedupFirst o.palettes)) :
    optimiseLoop o.palettes o.colours o.transparent_colour
        (MAX_COLOURS / MAX_COLOURS_PER_PALETTE + 1) unsat
        (List.replicate o.palettes.length 0) [] =
      o.optimise_palettes := by
  unfold Palette16Optimiser.optimise_palettes
  exact optimiseLoop_perm o.palettes o.colours o.transparent_colour _ _ _ _ _ h
